import Mathlib

set_option maxHeartbeats 1000000

/-!
Verification development for the `System.register` module formatter
(`src/index.js` of `es6-module-transpiler-system-formatter`).

The formatter rewrites one ES6 module's syntax tree into a
`System.register(name?, deps, function(__es6_export__){...})` call.
We embed the ESTree-style AST as a single inductive `Node` (mirroring the
single dynamically-tagged node type of `ast-types`), the analyzer-supplied
module metadata (`Module`, declaration collections, specifiers) as
structures, and each formatter method as a Lean function. Fallible
operations (`assert`, `throw`, member access on possibly-undefined values)
are modelled with `Except String` / `Option`.
-/

namespace SystemFormatter

/-- ESTree-style AST node, as manipulated through `recast.types` builders
(`b.*`) and checkers (`n.*.check`) in `src/index.js`. One constructor per
node type the formatter builds or inspects; `otherDeclaration` stands for
any further declaration node kind (carrying its `type` string), so that the
`declaration.type` error path of `processExportDeclaration` is expressible.
Note that per the `ast-types` grammar of the era, a `FunctionDeclaration`
(and `ClassDeclaration`) carries a mandatory identifier; an anonymous
function is a `FunctionExpression`. -/
inductive Node where
  | identifier (name : String)
  | literalStr (value : String)
  | literalNum (value : Int)
  | memberExpression (obj prop : Node) (computed : Bool)
  | callExpression (callee : Node) (args : List Node)
  | assignmentExpression (op : String) (left right : Node)
  | updateExpression (op : String) (pre : Bool) (arg : Node)
  | binaryExpression (op : String) (left right : Node)
  | sequenceExpression (exprs : List Node)
  | functionExpression (params : List Node) (body : List Node)
  | objectExpression (props : List Node)
  | property (kind : String) (key value : Node)
  | arrayExpression (elems : List Node)
  | expressionStatement (expr : Node)
  | emptyStatement
  | variableDeclaration (kind : String) (decls : List Node)
  | variableDeclarator (id : Node) (init : Option Node)
  | functionDeclaration (id : Node) (params : List Node) (body : List Node)
  | classDeclaration (id : Node)
  | returnStatement (arg : Node)
  | otherDeclaration (typeName : String)

/-- The `.name` attribute of an identifier node (`""` on non-identifiers;
the formatter only reads `.name` off identifier nodes). -/
def identNameD : Node → String
  | .identifier s => s
  | _ => ""

/-- The ESTree `type` tag of a node, as reported in the
`processExportDeclaration` error message. -/
def nodeType : Node → String
  | .identifier _ => "Identifier"
  | .literalStr _ => "Literal"
  | .literalNum _ => "Literal"
  | .memberExpression _ _ _ => "MemberExpression"
  | .callExpression _ _ => "CallExpression"
  | .assignmentExpression _ _ _ => "AssignmentExpression"
  | .updateExpression _ _ _ => "UpdateExpression"
  | .binaryExpression _ _ _ => "BinaryExpression"
  | .sequenceExpression _ => "SequenceExpression"
  | .functionExpression _ _ => "FunctionExpression"
  | .objectExpression _ => "ObjectExpression"
  | .property _ _ _ => "Property"
  | .arrayExpression _ => "ArrayExpression"
  | .expressionStatement _ => "ExpressionStatement"
  | .emptyStatement => "EmptyStatement"
  | .variableDeclaration _ _ => "VariableDeclaration"
  | .variableDeclarator _ _ => "VariableDeclarator"
  | .functionDeclaration _ _ _ => "FunctionDeclaration"
  | .classDeclaration _ => "ClassDeclaration"
  | .returnStatement _ => "ReturnStatement"
  | .otherDeclaration t => t

/-- `SystemFormatter.prototype.processExportReassignment`: rewrites a
mutation of an exported binding into a notify call. `some e` models
`Replacement.swaps(nodePath, e)`, `none` models `return null`. -/
def processExportReassignment (node : Node) : Option Node :=
  match node with
  | .assignmentExpression _ left _ =>
    some (.callExpression (.identifier "__es6_export__")
      [.literalStr (identNameD left), node])
  | .updateExpression _ true arg =>
    some (.callExpression (.identifier "__es6_export__")
      [.literalStr (identNameD arg), node])
  | .updateExpression op false arg =>
    some (.sequenceExpression
      [.callExpression (.identifier "__es6_export__")
        [.literalStr (identNameD arg),
         .binaryExpression (if op = "++" then "+" else "-") arg (.literalNum 1)],
       node])
  | _ => none

/-- `SystemFormatter.prototype.defaultExport`: named function/class
declarations are kept and followed by a notify statement; anything else
(including anonymous `FunctionExpression`s) becomes a single standalone
notify statement. -/
def defaultExport (declaration : Node) : List Node :=
  match declaration with
  | .functionDeclaration id _ _ =>
    [declaration,
     .expressionStatement (.callExpression (.identifier "__es6_export__")
       [.literalStr "default", id])]
  | .classDeclaration id =>
    [declaration,
     .expressionStatement (.callExpression (.identifier "__es6_export__")
       [.literalStr "default", id])]
  | _ =>
    [.expressionStatement (.callExpression (.identifier "__es6_export__")
      [.literalStr "default", declaration])]

/-- One specifier of a bare `export { a, b }` statement: `name` models the
optional `specifier.name` identifier's name, `id` the `specifier.id`
identifier's name (`specifier.name || specifier.id` picks `name` when
present). -/
structure ExportSpecifierNode where
  name : Option String
  id : String
deriving DecidableEq

/-- The export statement node handed to `processExportDeclaration`:
an optional wrapped declaration plus the bare specifier list. -/
structure ExportDeclarationNode where
  declaration : Option Node
  specifiers : List ExportSpecifierNode

/-- The per-declarator rewrite of the `VariableDeclaration` branch of
`processExportDeclaration`: a declarator with an initializer gets its
initializer wrapped in a notify call keyed by the declarator's name; any
other element is left untouched. -/
def wrapExportedDeclarator (dec : Node) : Node :=
  match dec with
  | .variableDeclarator id (some ini) =>
    .variableDeclarator id (some (.callExpression (.identifier "__es6_export__")
      [.literalStr (identNameD id), ini]))
  | _ => dec

/-- `SystemFormatter.prototype.processExportDeclaration`: the statement(s)
replacing the export statement, or the thrown error. -/
def processExportDeclaration (node : ExportDeclarationNode) :
    Except String (List Node) :=
  match node.declaration with
  | some d =>
    match d with
    | .functionDeclaration id _ _ =>
      .ok [d, .expressionStatement (.callExpression (.identifier "__es6_export__")
        [.literalStr (identNameD id), id])]
    | .classDeclaration id =>
      .ok [d, .expressionStatement (.callExpression (.identifier "__es6_export__")
        [.literalStr (identNameD id), id])]
    | .variableDeclaration kind decs =>
      .ok [.variableDeclaration kind (decs.map wrapExportedDeclarator)]
    | _ =>
      .error ("unexpected export style, found a declaration of type: " ++ nodeType d)
  | none =>
    .ok (node.specifiers.map (fun s =>
      .expressionStatement (.callExpression (.identifier "__es6_export__")
        [.literalStr (s.name.getD s.id), .identifier s.id])))

/-! ## A small expression semantics

To state what the reassignment rewrites *mean* (pre/post values, notify
log), we give a fuel-indexed evaluator for the expression fragment the
rewriter deals in: identifiers, numeric literals, `+`/`-` binary
expressions, assignment to an identifier, `++`/`--` updates, the
`__es6_export__` notify call (which records `(name, value)` and returns the
value), and two-element sequence expressions. -/

/-- Pointwise environment update. -/
def updEnv (env : String → Int) (x : String) (v : Int) : String → Int :=
  fun y => if y = x then v else env y

/-- Evaluation state: variable environment plus the ordered log of notify
calls `(exported name, notified value)` performed so far. -/
structure EvalState where
  env : String → Int
  log : List (String × Int)

/-- Fuel-indexed big-step evaluator for the expression fragment above;
`none` on unsupported forms or fuel exhaustion. -/
def evalE : Nat → Node → EvalState → Option (Int × EvalState)
  | 0, _, _ => none
  | Nat.succ fuel, e, s =>
    match e with
    | .identifier x => some (s.env x, s)
    | .literalNum v => some (v, s)
    | .binaryExpression op l r =>
      match evalE fuel l s with
      | none => none
      | some (vl, s1) =>
        match evalE fuel r s1 with
        | none => none
        | some (vr, s2) =>
          if op = "+" then some (vl + vr, s2)
          else if op = "-" then some (vl - vr, s2)
          else none
    | .assignmentExpression op (.identifier x) rhs =>
      if op = "=" then
        match evalE fuel rhs s with
        | none => none
        | some (v, s1) => some (v, ⟨updEnv s1.env x v, s1.log⟩)
      else none
    | .updateExpression op pre (.identifier x) =>
      if op = "++" then
        some ((if pre then s.env x + 1 else s.env x),
          ⟨updEnv s.env x (s.env x + 1), s.log⟩)
      else if op = "--" then
        some ((if pre then s.env x - 1 else s.env x),
          ⟨updEnv s.env x (s.env x - 1), s.log⟩)
      else none
    | .callExpression (.identifier c) [.literalStr nm, arg] =>
      if c = "__es6_export__" then
        match evalE fuel arg s with
        | none => none
        | some (v, s1) => some (v, ⟨s1.env, s1.log ++ [(nm, v)]⟩)
      else none
    | .sequenceExpression [a, bb] =>
      match evalE fuel a s with
      | none => none
      | some (_, s1) => evalE fuel bb s1
    | _ => none

/-! ## The analyzer-supplied module metadata

The upstream analyzer (es6-module-transpiler) hands the formatter a
`Module` object with a globally-unique `id`, a registration `name`, two
declaration collections (`imports` / `exports`) and a
`getModule(path)` lookup. JavaScript reference identity of `Module`
instances (used by `indexOf` / `===` in the formatter) is modelled through
a numeric `key` carried by `ModuleRef`; the analyzer creates one instance
per module, so distinct instances carry distinct keys. -/

/-- A reference to an analyzed dependency `Module`: its identity `key`, its
generated identifier `id`, and its `relativePath` (used in messages). -/
structure ModuleRef where
  key : Nat
  id : String
  relativePath : String
deriving DecidableEq

/-- One import/export declaration statement record, as scanned by
`buildDependenciesMeta`: its resolved `source` module (absent for a plain
local export declaration) and its literal `sourcePath` as authored. -/
structure DeclarationRec where
  source : Option ModuleRef
  sourcePath : String
deriving DecidableEq

/-- One named binding crossing the module boundary: its local `name`, the
remote export key `fromKey` it is bound to (`specifier.from`; absent for a
namespace-style binding), and `declSourceValue`, the literal path on the
originating declaration node (`specifier.declaration.node.source.value`;
absent when the declaration has no source). -/
structure SpecifierRec where
  name : String
  fromKey : Option String
  declSourceValue : Option String
deriving DecidableEq

/-- A declaration collection (`mod.imports` / `mod.exports`): ordered local
binding `names`, the insertion-ordered set of dependency `modules`, the
declaration records, and the specifier records searched by
`findSpecifierByName`. -/
structure DeclarationCollection where
  names : List String
  modules : List ModuleRef
  declarations : List DeclarationRec
  specifiers : List SpecifierRec
deriving DecidableEq

/-- `collection.findSpecifierByName(name)`: first specifier with the given
local name. -/
def findSpecifierByName (c : DeclarationCollection) (name : String) :
    Option SpecifierRec :=
  c.specifiers.find? (fun s => s.name = name)

/-- The analyzed module being formatted, together with the
`getModule(path)` table and its (already rewritten) program body. -/
structure Mod where
  id : String
  name : String
  relativePath : String
  imports : DeclarationCollection
  exports : DeclarationCollection
  moduleTable : List (String × ModuleRef)
  body : List Node

/-- `mod.getModule(literalPath)`. -/
def getModule (m : Mod) (path : String) : Option ModuleRef :=
  (m.moduleTable.find? (fun p => p.1 = path)).map (fun p => p.2)

/-! ## Dependency metadata (`buildDependenciesMeta`) -/

/-- The three local accumulator arrays of `buildDependenciesMeta`. -/
structure DepState where
  requiredModules : List ModuleRef
  importedModules : List Node
  importedModuleIdentifiers : List Node
deriving Inhabited

/-- One iteration of the `declarations.modules.forEach` body of
`buildDependenciesMeta` for source module `sourceModule`, scanning
collection `decls`: skip if already required, else record the module, its
identifier, and the `sourcePath` of the first declaration whose `source` is
the module (the `assert.ok` failure is an `error`). -/
def depStep (decls : DeclarationCollection) (st : DepState)
    (sourceModule : ModuleRef) : Except String DepState :=
  if sourceModule ∈ st.requiredModules then .ok st
  else
    match decls.declarations.find? (fun d => d.source = some sourceModule) with
    | none =>
      .error ("no matching declaration for source module: " ++
        sourceModule.relativePath)
    | some d =>
      .ok { requiredModules := st.requiredModules ++ [sourceModule],
            importedModules := st.importedModules ++ [.literalStr d.sourcePath],
            importedModuleIdentifiers :=
              st.importedModuleIdentifiers ++ [.identifier sourceModule.id] }

/-- The `{setters, deps}` result of `buildDependenciesMeta`. -/
structure DepsMeta where
  setters : List Node
  deps : List Node

/-- `SystemFormatter.prototype.buildDependenciesMeta`: scan
`[mod.imports, mod.exports]`, deduplicating dependency modules on first
occurrence. -/
def buildDependenciesMeta (m : Mod) : Except String DepsMeta := do
  let st1 ← m.imports.modules.foldlM (depStep m.imports) ⟨[], [], []⟩
  let st2 ← m.exports.modules.foldlM (depStep m.exports) st1
  .ok ⟨st2.importedModuleIdentifiers, st2.importedModules⟩

/-- `SystemFormatter.prototype.buildImportedVariables`: hoisted `var`
declaration for all imported identifiers, or an empty statement when there
are none. -/
def buildImportedVariables (m : Mod) : Node :=
  if m.imports.names.length > 0 then
    .variableDeclaration "var"
      (m.imports.names.map (fun name => .identifier name))
  else
    .emptyStatement

/-! ## Setter synthesis (`buildSetterFunctionDeclarations`)

`fnByModule` is a JavaScript object used as an insertion-ordered map from
dependency module `id` to the (mutable) body of its setter function; we
model it as an association list from id to statement list. -/

/-- `getFnDeclarationBody(id)`'s create-if-absent effect on `fnByModule`. -/
def ensureFn (fns : List (String × List Node)) (id : String) :
    List (String × List Node) :=
  if fns.any (fun p => p.1 = id) then fns else fns ++ [(id, [])]

/-- `getFnDeclarationBody(id).push(stmt)`: create the entry if absent, then
append `stmt` to its body. -/
def pushStmt (fns : List (String × List Node)) (id : String) (stmt : Node) :
    List (String × List Node) :=
  (ensureFn fns id).map (fun p => if p.1 = id then (p.1, p.2 ++ [stmt]) else p)

/-- The assignment statement synthesized for one import specifier: from the
named export key of the setter's parameter `m` when the specifier has one,
or the entire export object `m` for a namespace-style binding. -/
def importSetterStmt (spec : SpecifierRec) : Node :=
  match spec.fromKey with
  | some k =>
    .expressionStatement (.assignmentExpression "="
      (.identifier spec.name)
      (.memberExpression (.identifier "m") (.literalStr k) true))
  | none =>
    .expressionStatement (.assignmentExpression "="
      (.identifier spec.name) (.identifier "m"))

/-- The republish statement synthesized for one sourced re-export
specifier: `__es6_export__(<local name>, m[<remote key>])`. -/
def exportSetterStmt (spec : SpecifierRec) : Node :=
  .expressionStatement (.callExpression (.identifier "__es6_export__")
    [.literalStr spec.name,
     .memberExpression (.identifier "m") (.literalStr (spec.fromKey.getD "")) true])

/-- One iteration of the `mod.imports.names.forEach` body: resolve the
specifier and its source module, then push the assignment into that
module's setter body. A missing specifier, declaration source, or module
would be a `TypeError` in the JavaScript; modelled as `error`. -/
def processImportName (m : Mod) (fns : List (String × List Node))
    (name : String) : Except String (List (String × List Node)) :=
  match findSpecifierByName m.imports name with
  | none => .error ("cannot read declaration of undefined specifier: " ++ name)
  | some spec =>
    match spec.declSourceValue with
    | none => .error ("cannot read source of declaration for: " ++ name)
    | some path =>
      match getModule m path with
      | none => .error ("cannot read id of undefined module: " ++ path)
      | some depMod => .ok (pushStmt fns depMod.id (importSetterStmt spec))

/-- One iteration of the `mod.exports.names.forEach` body: assert the
specifier exists, skip unsourced exports, and push the republish call into
the source module's setter body. -/
def processExportName (m : Mod) (fns : List (String × List Node))
    (name : String) : Except String (List (String × List Node)) :=
  match findSpecifierByName m.exports name with
  | none =>
    .error ("no export specifier found for export name `" ++ name ++
      "` from " ++ m.relativePath)
  | some spec =>
    match spec.declSourceValue with
    | none => .ok fns
    | some path =>
      match getModule m path with
      | none => .error ("cannot read id of undefined module: " ++ path)
      | some depMod => .ok (pushStmt fns depMod.id (exportSetterStmt spec))

/-- `SystemFormatter.prototype.buildSetterFunctionDeclarations`: ensure a
(possibly empty) setter for every imported module, fill the setters from
the import names and the sourced export names, then emit one
`function <id>(m) { ... }` declaration per entry. -/
def buildSetterFunctionDeclarations (m : Mod) :
    Except String (List Node) := do
  let fns0 := m.imports.modules.foldl (fun fns dm => ensureFn fns dm.id) []
  let fns1 ← m.imports.names.foldlM (processImportName m) fns0
  let fns2 ← m.exports.names.foldlM (processExportName m) fns1
  if fns2.length > 0 then
    .ok (fns2.map (fun p =>
      .functionDeclaration (.identifier p.1) [.identifier "m"] p.2))
  else
    .ok []

/-! ## The build orchestrator (`build`) -/

/-- The program body `build` installs for one module: the single
`System.register(...)` statement (name argument omitted in anonymous
mode). -/
def build (anonymous : Bool) (m : Mod) : Except String (List Node) := do
  let meta ← buildDependenciesMeta m
  let setterFns ← buildSetterFunctionDeclarations m
  let body := Node.expressionStatement (.literalStr "use strict") :: m.body
  let wrapperBlock :=
    buildImportedVariables m :: setterFns ++
    [Node.returnStatement (.objectExpression
      [.property "init" (.literalStr "setters") (.arrayExpression meta.setters),
       .property "init" (.literalStr "execute")
         (.functionExpression [] body)])]
  let deps := Node.arrayExpression meta.deps
  let wrapper := Node.functionExpression [.identifier "__es6_export__"]
    wrapperBlock
  if anonymous then
    .ok [.expressionStatement (.callExpression
      (.memberExpression (.identifier "System") (.identifier "register") false)
      [deps, wrapper])]
  else
    .ok [.expressionStatement (.callExpression
      (.memberExpression (.identifier "System") (.identifier "register") false)
      [.literalStr m.name, deps, wrapper])]

/-! ## Spec-side characterization of the dependency scan

`firstOccurrenceDedup` and `depPathChoice` follow the spec's words
(«dedupe-on-first-occurrence across the concatenation of `imports` then
`exports`», «the first declaration in source order that cites a given
dependency Module supplies the literal path»); the theorems below relate
them to `buildDependenciesMeta` as translated from the code. -/

/-- Modelled from the spec: keep a scanned module only on its first
occurrence. -/
def insertIfAbsent (acc : List ModuleRef) (M : ModuleRef) : List ModuleRef :=
  if M ∈ acc then acc else acc ++ [M]

/-- Modelled from the spec: first-occurrence deduplication of a scan
list. -/
def firstOccurrenceDedup (l : List ModuleRef) : List ModuleRef :=
  l.foldl insertIfAbsent []

/-- The `sourcePath` of the first declaration of collection `c` whose
`source` is `M` (`""` when there is none; `buildDependenciesMeta` fails in
that case, so the default never surfaces in an `ok` result). -/
def collectionPath (c : DeclarationCollection) (M : ModuleRef) : String :=
  match c.declarations.find? (fun d => d.source = some M) with
  | some d => d.sourcePath
  | none => ""

/-- Modelled from the spec: the literal path paired with dependency `M` —
from the imports collection when `M` is cited there (imports are scanned
first), otherwise from the exports collection. -/
def depPathChoice (m : Mod) (M : ModuleRef) : String :=
  if M ∈ m.imports.modules then collectionPath m.imports M
  else collectionPath m.exports M

/-- Invariant tying the three accumulator arrays of
`buildDependenciesMeta` together: identifiers and paths are the images of
the required-module list. -/
def DepInv (m : Mod) (st : DepState) : Prop :=
  st.importedModuleIdentifiers =
    st.requiredModules.map (fun M => Node.identifier M.id) ∧
  st.importedModules =
    st.requiredModules.map (fun M => Node.literalStr (depPathChoice m M))

lemma except_bind_ok {α β : Type} {x : Except String α} {f : α → Except String β}
    {b : β} (h : x >>= f = .ok b) : ∃ a, x = .ok a ∧ f a = .ok b := by
  cases x with
  | error e =>
    exact Except.noConfusion (by simpa only [Bind.bind, Except.bind] using h)
  | ok a => exact ⟨a, rfl, by simpa only [Bind.bind, Except.bind] using h⟩

lemma mem_insertIfAbsent {acc : List ModuleRef} {M a : ModuleRef} :
    a ∈ insertIfAbsent acc M ↔ a ∈ acc ∨ a = M := by
  unfold insertIfAbsent
  by_cases hm : M ∈ acc
  · rw [if_pos hm]
    constructor
    · exact Or.inl
    · rintro (h | rfl)
      · exact h
      · exact hm
  · rw [if_neg hm]
    simp

lemma mem_foldl_insertIfAbsent {l : List ModuleRef} :
    ∀ {acc a}, a ∈ l.foldl insertIfAbsent acc ↔ a ∈ acc ∨ a ∈ l := by
  induction l with
  | nil => simp
  | cons hd tl ih =>
    intro acc a
    rw [List.foldl_cons, ih, mem_insertIfAbsent]
    simp [List.mem_cons]
    tauto

lemma nodup_foldl_insertIfAbsent {l : List ModuleRef} :
    ∀ {acc}, acc.Nodup → (l.foldl insertIfAbsent acc).Nodup := by
  induction l with
  | nil => intro _ h; exact h
  | cons hd tl ih =>
    intro acc h
    rw [List.foldl_cons]
    apply ih
    unfold insertIfAbsent
    split
    · exact h
    · next hnm =>
      simp only [List.nodup_append, List.nodup_cons, List.not_mem_nil,
        not_false_iff, List.nodup_nil, and_true, true_and]
      constructor
      · exact h
      · intro a ha
        simp only [List.mem_singleton]
        intro rfl_eq
        subst rfl_eq
        exact hnm ha

lemma depStep_ok {c : DeclarationCollection} {st st' : DepState}
    {M : ModuleRef} (h : depStep c st M = .ok st') :
    (M ∈ st.requiredModules ∧ st' = st) ∨
    (M ∉ st.requiredModules ∧
      ∃ d, c.declarations.find? (fun d => d.source = some M) = some d ∧
        st' = ⟨st.requiredModules ++ [M],
               st.importedModules ++ [.literalStr d.sourcePath],
               st.importedModuleIdentifiers ++ [.identifier M.id]⟩) := by
  unfold depStep at h
  split at h
  · next hm =>
    refine Or.inl ⟨hm, ?_⟩
    injection h with h
    exact h.symm
  · next hm =>
    cases hf : c.declarations.find? (fun d => d.source = some M) with
    | none => rw [hf] at h; exact Except.noConfusion h
    | some d =>
      rw [hf] at h
      injection h with h
      exact Or.inr ⟨hm, d, rfl, h.symm⟩

lemma foldlM_depStep_ok (m : Mod) (c : DeclarationCollection) :
    ∀ (mods : List ModuleRef) (st st' : DepState),
    mods.foldlM (depStep c) st = .ok st' →
    (∀ M ∈ mods, M ∉ st.requiredModules →
      collectionPath c M = depPathChoice m M) →
    DepInv m st →
    DepInv m st' ∧
    st'.requiredModules = mods.foldl insertIfAbsent st.requiredModules := by
  intro mods
  induction mods with
  | nil =>
    intro st st' h _ hinv
    rw [List.foldlM_nil] at h
    have h' : Except.ok st = Except.ok st' := h
    injection h' with h'
    subst h'
    exact ⟨hinv, rfl⟩
  | cons hd tl ih =>
    intro st st' h hgood hinv
    rw [List.foldlM_cons] at h
    obtain ⟨st1, h1, h2⟩ := except_bind_ok h
    rcases depStep_ok h1 with ⟨hmem, heq⟩ | ⟨hnm, d, hfind, heq⟩
    · rw [heq] at h2
      have hres := ih st st' h2
        (fun M hM hn => hgood M (List.mem_cons_of_mem _ hM) hn) hinv
      rw [List.foldl_cons,
        show insertIfAbsent st.requiredModules hd = st.requiredModules from
          if_pos hmem]
      exact hres
    · rw [heq] at h2
      have hpath : collectionPath c hd = depPathChoice m hd :=
        hgood hd (List.mem_cons_self _ _) hnm
      have hcp : collectionPath c hd = d.sourcePath := by
        unfold collectionPath; rw [hfind]
      have hinv1 : DepInv m
          ⟨st.requiredModules ++ [hd],
           st.importedModules ++ [.literalStr d.sourcePath],
           st.importedModuleIdentifiers ++ [.identifier hd.id]⟩ := by
        constructor
        · simp only [List.map_append, List.map_cons, List.map_nil]
          rw [hinv.1]
        · simp only [List.map_append, List.map_cons, List.map_nil]
          rw [hinv.2, ← hcp, hpath]
      have hgood1 : ∀ M ∈ tl,
          M ∉ (st.requiredModules ++ [hd]) →
          collectionPath c M = depPathChoice m M := by
        intro M hM hn
        exact hgood M (List.mem_cons_of_mem _ hM)
          (fun hin => hn (List.mem_append_left _ hin))
      have hres := ih _ st' h2 hgood1 hinv1
      rw [List.foldl_cons,
        show insertIfAbsent st.requiredModules hd = st.requiredModules ++ [hd]
          from if_neg hnm]
      exact hres

lemma depsMeta_char (m : Mod) (meta : DepsMeta)
    (h : buildDependenciesMeta m = .ok meta) :
    meta.setters =
      (firstOccurrenceDedup (m.imports.modules ++ m.exports.modules)).map
        (fun M => Node.identifier M.id) ∧
    meta.deps =
      (firstOccurrenceDedup (m.imports.modules ++ m.exports.modules)).map
        (fun M => Node.literalStr (depPathChoice m M)) := by
  unfold buildDependenciesMeta at h
  obtain ⟨st1, h1, h'⟩ := except_bind_ok h
  obtain ⟨st2, h2, h''⟩ := except_bind_ok h'
  have hmeta : meta = ⟨st2.importedModuleIdentifiers, st2.importedModules⟩ := by
    injection h'' with h''
    exact h''.symm
  have hph1 := foldlM_depStep_ok m m.imports m.imports.modules ⟨[], [], []⟩ st1
    h1
    (fun M hM _ => by unfold depPathChoice; rw [if_pos hM])
    ⟨rfl, rfl⟩
  have himpsub : ∀ M ∈ m.imports.modules, M ∈ st1.requiredModules := by
    intro M hM
    rw [hph1.2]
    exact mem_foldl_insertIfAbsent.mpr (Or.inr hM)
  have hph2 := foldlM_depStep_ok m m.exports m.exports.modules st1 st2
    h2
    (fun M hM hn => by
      unfold depPathChoice
      rw [if_neg (fun hin => hn (himpsub M hin))])
    hph1.1
  have hreq : st2.requiredModules =
      firstOccurrenceDedup (m.imports.modules ++ m.exports.modules) := by
    rw [hph2.2, hph1.2]
    unfold firstOccurrenceDedup
    rw [List.foldl_append]
  refine ⟨?_, ?_⟩
  · rw [hmeta]
    exact hreq ▸ hph2.1.1
  · rw [hmeta]
    exact hreq ▸ hph2.1.2

/-- C3: `buildDependenciesMeta` deduplicates on first occurrence across the
concatenation of the imports collection's modules then the exports
collection's modules, in iteration order; the literal path paired with each
dependency is the `sourcePath` of the first declaration citing it in the
collection where it first occurred; and a module referenced both by
an import and by a sourced re-export contributes exactly one entry. -/
theorem buildDependenciesMeta_spec (m : Mod) (meta : DepsMeta)
    (h : buildDependenciesMeta m = .ok meta) :
    meta.setters =
      (firstOccurrenceDedup (m.imports.modules ++ m.exports.modules)).map
        (fun M => Node.identifier M.id) ∧
    meta.deps =
      (firstOccurrenceDedup (m.imports.modules ++ m.exports.modules)).map
        (fun M => Node.literalStr (depPathChoice m M)) ∧
    (∀ M, M ∈ m.imports.modules → M ∈ m.exports.modules →
      (firstOccurrenceDedup (m.imports.modules ++ m.exports.modules)).count M
        = 1) := by
  obtain ⟨hsetters, hdeps⟩ := depsMeta_char m meta h
  refine ⟨hsetters, hdeps, ?_⟩
  intro M hMi _
  apply List.count_eq_one_of_mem
  · exact nodup_foldl_insertIfAbsent List.nodup_nil
  · exact mem_foldl_insertIfAbsent.mpr (Or.inr (List.mem_append_left _ hMi))

/-- Dependency module used by the `C3` witness: referenced both by
an import and by a sourced re-export of the witness module. -/
def wMixB : ModuleRef := ⟨1, "b$$", "b.js"⟩

/-- Imports collection of the `C3` witness module: `import {x} from './b'`. -/
def wMixImports : DeclarationCollection :=
  ⟨["x"], [wMixB], [⟨some wMixB, "./b"⟩], [⟨"x", some "x", some "./b"⟩]⟩

/-- Exports collection of the `C3` witness module: `export {z} from './b'`. -/
def wMixExports : DeclarationCollection :=
  ⟨["z"], [wMixB], [⟨some wMixB, "./b"⟩], [⟨"z", some "z", some "./b"⟩]⟩

/-- Witness module for `C3`: imports `{x}` from `./b` and re-exports
`{z}` from `./b`, so the same dependency is cited by both collections. -/
def wMixMod : Mod :=
  ⟨"a$$", "a", "a.js", wMixImports, wMixExports, [("./b", wMixB)], []⟩

theorem buildDependenciesMeta_spec_witness :
    buildDependenciesMeta wMixMod =
      .ok ⟨[.identifier "b$$"], [.literalStr "./b"]⟩ ∧
    ((DepsMeta.mk [.identifier "b$$"] [.literalStr "./b"]).setters =
      (firstOccurrenceDedup (wMixMod.imports.modules ++ wMixMod.exports.modules)).map
        (fun M => Node.identifier M.id) ∧
    (DepsMeta.mk [.identifier "b$$"] [.literalStr "./b"]).deps =
      (firstOccurrenceDedup (wMixMod.imports.modules ++ wMixMod.exports.modules)).map
        (fun M => Node.literalStr (depPathChoice wMixMod M)) ∧
    (∀ M, M ∈ wMixMod.imports.modules → M ∈ wMixMod.exports.modules →
      (firstOccurrenceDedup (wMixMod.imports.modules ++ wMixMod.exports.modules)).count M
        = 1)) :=
  ⟨rfl, buildDependenciesMeta_spec wMixMod ⟨[.identifier "b$$"], [.literalStr "./b"]⟩ rfl⟩

/-! ## Semantics of the reassignment rewrites -/

lemma evalE_notify (fuel : Nat) (nm : String) (arg : Node) (s : EvalState)
    {v : Int} {s1 : EvalState} (h : evalE fuel arg s = some (v, s1)) :
    evalE (Nat.succ fuel) (.callExpression (.identifier "__es6_export__")
      [.literalStr nm, arg]) s = some (v, ⟨s1.env, s1.log ++ [(nm, v)]⟩) := by
  simp only [evalE, h, if_pos]

lemma evalE_assign (fuel : Nat) (x : String) (rhs : Node) (s : EvalState)
    {v : Int} {s1 : EvalState} (h : evalE fuel rhs s = some (v, s1)) :
    evalE (Nat.succ fuel) (.assignmentExpression "=" (.identifier x) rhs) s =
      some (v, ⟨updEnv s1.env x v, s1.log⟩) := by
  simp only [evalE, h, if_pos]

/-- C1: a postfix increment/decrement of an exported binding is rewritten
into a sequence expression whose first step is a notify call carrying the
updated value, computed non-mutatingly as `x + 1` (resp. `x - 1`), and
whose second and final step is the original postfix expression; evaluating
the rewritten expression yields the pre-update value as the expression's
own result while the logged notification carries the post-update value. -/
theorem updPostRewrite_spec (x : String) (s : EvalState) :
    (processExportReassignment (.updateExpression "++" false (.identifier x)) =
      some (.sequenceExpression
        [.callExpression (.identifier "__es6_export__")
          [.literalStr x,
           .binaryExpression "+" (.identifier x) (.literalNum 1)],
         .updateExpression "++" false (.identifier x)]) ∧
     evalE 5 (.sequenceExpression
        [.callExpression (.identifier "__es6_export__")
          [.literalStr x,
           .binaryExpression "+" (.identifier x) (.literalNum 1)],
         .updateExpression "++" false (.identifier x)]) s =
      some (s.env x,
        ⟨updEnv s.env x (s.env x + 1), s.log ++ [(x, s.env x + 1)]⟩)) ∧
    (processExportReassignment (.updateExpression "--" false (.identifier x)) =
      some (.sequenceExpression
        [.callExpression (.identifier "__es6_export__")
          [.literalStr x,
           .binaryExpression "-" (.identifier x) (.literalNum 1)],
         .updateExpression "--" false (.identifier x)]) ∧
     evalE 5 (.sequenceExpression
        [.callExpression (.identifier "__es6_export__")
          [.literalStr x,
           .binaryExpression "-" (.identifier x) (.literalNum 1)],
         .updateExpression "--" false (.identifier x)]) s =
      some (s.env x,
        ⟨updEnv s.env x (s.env x - 1), s.log ++ [(x, s.env x - 1)]⟩)) :=
  ⟨⟨rfl, rfl⟩, ⟨rfl, rfl⟩⟩

/-- C6: a plain assignment `x = expr` to an exported name is replaced by
`__es6_export__("x", x = expr)`, which evaluates to the assigned value and
appends exactly one notification carrying that fresh value; a prefix
increment/decrement `++x` / `--x` is likewise wrapped as
`__es6_export__("x", ++x)`, notifying once with the updated value that the
prefix expression itself yields. -/
theorem assignRewrite_spec (x : String) (rhs : Node) (s s1 : EvalState)
    (v : Int) (fuel : Nat) (h : evalE fuel rhs s = some (v, s1)) :
    (processExportReassignment (.assignmentExpression "=" (.identifier x) rhs) =
      some (.callExpression (.identifier "__es6_export__")
        [.literalStr x, .assignmentExpression "=" (.identifier x) rhs])) ∧
    (evalE (fuel + 2) (.callExpression (.identifier "__es6_export__")
        [.literalStr x, .assignmentExpression "=" (.identifier x) rhs]) s =
      some (v, ⟨updEnv s1.env x v, s1.log ++ [(x, v)]⟩)) ∧
    (processExportReassignment (.updateExpression "++" true (.identifier x)) =
      some (.callExpression (.identifier "__es6_export__")
        [.literalStr x, .updateExpression "++" true (.identifier x)])) ∧
    (evalE 5 (.callExpression (.identifier "__es6_export__")
        [.literalStr x, .updateExpression "++" true (.identifier x)]) s =
      some (s.env x + 1,
        ⟨updEnv s.env x (s.env x + 1), s.log ++ [(x, s.env x + 1)]⟩)) ∧
    (processExportReassignment (.updateExpression "--" true (.identifier x)) =
      some (.callExpression (.identifier "__es6_export__")
        [.literalStr x, .updateExpression "--" true (.identifier x)])) ∧
    (evalE 5 (.callExpression (.identifier "__es6_export__")
        [.literalStr x, .updateExpression "--" true (.identifier x)]) s =
      some (s.env x - 1,
        ⟨updEnv s.env x (s.env x - 1), s.log ++ [(x, s.env x - 1)]⟩)) :=
  ⟨rfl, evalE_notify (fuel + 1) x _ s (evalE_assign fuel x rhs s h),
   rfl, rfl, rfl, rfl⟩

theorem assignRewrite_spec_witness :
    (evalE 1 (.literalNum 7) ⟨fun _ => 0, []⟩ =
      some (7, (⟨fun _ => 0, []⟩ : EvalState))) ∧
    ((processExportReassignment
        (.assignmentExpression "=" (.identifier "x") (.literalNum 7)) =
      some (.callExpression (.identifier "__es6_export__")
        [.literalStr "x",
         .assignmentExpression "=" (.identifier "x") (.literalNum 7)])) ∧
    (evalE 3 (.callExpression (.identifier "__es6_export__")
        [.literalStr "x",
         .assignmentExpression "=" (.identifier "x") (.literalNum 7)])
        ⟨fun _ => 0, []⟩ =
      some (7, ⟨updEnv (fun _ => 0) "x" 7, [] ++ [("x", 7)]⟩)) ∧
    (processExportReassignment (.updateExpression "++" true (.identifier "x")) =
      some (.callExpression (.identifier "__es6_export__")
        [.literalStr "x", .updateExpression "++" true (.identifier "x")])) ∧
    (evalE 5 (.callExpression (.identifier "__es6_export__")
        [.literalStr "x", .updateExpression "++" true (.identifier "x")])
        ⟨fun _ => 0, []⟩ =
      some ((fun _ => (0 : Int)) "x" + 1,
        ⟨updEnv (fun _ => 0) "x" ((fun _ => (0 : Int)) "x" + 1),
         [] ++ [("x", (fun _ => (0 : Int)) "x" + 1)]⟩)) ∧
    (processExportReassignment (.updateExpression "--" true (.identifier "x")) =
      some (.callExpression (.identifier "__es6_export__")
        [.literalStr "x", .updateExpression "--" true (.identifier "x")])) ∧
    (evalE 5 (.callExpression (.identifier "__es6_export__")
        [.literalStr "x", .updateExpression "--" true (.identifier "x")])
        ⟨fun _ => 0, []⟩ =
      some ((fun _ => (0 : Int)) "x" - 1,
        ⟨updEnv (fun _ => 0) "x" ((fun _ => (0 : Int)) "x" - 1),
         [] ++ [("x", (fun _ => (0 : Int)) "x" - 1)]⟩))) :=
  ⟨rfl, assignRewrite_spec "x" (.literalNum 7) ⟨fun _ => 0, []⟩
    ⟨fun _ => 0, []⟩ 7 1 rfl⟩

/-- C7: exporting a variable declaration keeps the declaration statement,
rewrites each declarator with an initializer so that its initializer
becomes a notify call wrapping the original initializer (keyed by the
declarator's name, one atomic expression per declarator), and leaves
declarators without initializers as plain declarations. -/
theorem exportVarDeclaration_spec (kind : String) (decs : List Node)
    (specifiers : List ExportSpecifierNode) :
    processExportDeclaration ⟨some (.variableDeclaration kind decs), specifiers⟩ =
      .ok [.variableDeclaration kind (decs.map wrapExportedDeclarator)] ∧
    (∀ id ini, wrapExportedDeclarator (.variableDeclarator id (some ini)) =
      .variableDeclarator id (some (.callExpression (.identifier "__es6_export__")
        [.literalStr (identNameD id), ini]))) ∧
    (∀ id, wrapExportedDeclarator (.variableDeclarator id none) =
      .variableDeclarator id none) :=
  ⟨rfl, fun _ _ => rfl, fun _ => rfl⟩

/-! ## The anonymous-default-export sample module (C2) -/

/-- The anonymous default-export function of the `C2` sample:
`function(a, b) { return a + b; }`. As parsed by the upstream grammar it is
a `FunctionExpression` (it has no name), so the
`n.FunctionDeclaration.check` branch of `defaultExport` does not apply. -/
def anonAddFn : Node :=
  .functionExpression [.identifier "a", .identifier "b"]
    [.returnStatement (.binaryExpression "+" (.identifier "a") (.identifier "b"))]

/-- An empty declaration collection. -/
def emptyCollection : DeclarationCollection := ⟨[], [], [], []⟩

/-- The `C2` sample module: `export default function(a,b){return a+b;}`
with no imports and no other exports; its body is the rewriter's
`defaultExport` output for the anonymous function. -/
def defaultOnlyMod : Mod :=
  ⟨"fixtures$1$$", "fixtures/1", "fixtures/1.js", emptyCollection,
   emptyCollection, [], defaultExport anonAddFn⟩

/-- The execute body `build` generates for `defaultOnlyMod`. -/
def defaultOnlyExecBody : List Node :=
  [.expressionStatement (.literalStr "use strict"),
   .expressionStatement (.callExpression (.identifier "__es6_export__")
     [.literalStr "default", anonAddFn])]

/-- Number of statements in a list that are notify calls for the export
name `"default"`. -/
def countNotifyDefault (stmts : List Node) : Nat :=
  stmts.countP (fun s =>
    match s with
    | .expressionStatement (.callExpression (.identifier "__es6_export__")
        (.literalStr "default" :: _)) => true
    | _ => false)

/-- C2: a default export of an anonymous function (or any non-declaration
expression) becomes a single standalone `__es6_export__("default", <expr>)`
statement; a named default function or class declaration is kept and a
separate notify call referencing its name is appended after it; and for a
module consisting only of `export default function(a,b){return a+b;}` with
no imports, the generated execute body contains exactly one notify call for
`"default"` wrapping the anonymous function, the hoist slot is an empty
statement, and the setters array is empty. -/
theorem defaultExport_spec :
    (∀ params body, defaultExport (.functionExpression params body) =
      [.expressionStatement (.callExpression (.identifier "__es6_export__")
        [.literalStr "default", .functionExpression params body])]) ∧
    (∀ id params body,
      defaultExport (.functionDeclaration id params body) =
      [.functionDeclaration id params body,
       .expressionStatement (.callExpression (.identifier "__es6_export__")
         [.literalStr "default", id])]) ∧
    (∀ id, defaultExport (.classDeclaration id) =
      [.classDeclaration id,
       .expressionStatement (.callExpression (.identifier "__es6_export__")
         [.literalStr "default", id])]) ∧
    build false defaultOnlyMod = .ok
      [.expressionStatement (.callExpression
        (.memberExpression (.identifier "System") (.identifier "register") false)
        [.literalStr "fixtures/1", .arrayExpression [],
         .functionExpression [.identifier "__es6_export__"]
          [.emptyStatement,
           .returnStatement (.objectExpression
            [.property "init" (.literalStr "setters") (.arrayExpression []),
             .property "init" (.literalStr "execute")
               (.functionExpression [] defaultOnlyExecBody)])]])] ∧
    countNotifyDefault defaultOnlyExecBody = 1 :=
  ⟨fun _ _ => rfl, fun _ _ _ => rfl, fun _ => rfl, rfl, rfl⟩

/-! ## Fail-fast error paths (C8) -/

/-- Whether the declaration kind is one the `processExportDeclaration`
dispatch recognizes (function, class, or variable declaration). -/
def recognizedDeclKind : Node → Bool
  | .functionDeclaration _ _ _ => true
  | .classDeclaration _ => true
  | .variableDeclaration _ _ => true
  | _ => false

lemma exportFold_bad_name (m : Mod) :
    ∀ (names : List String) (name : String), name ∈ names →
    findSpecifierByName m.exports name = none →
    ∀ fns fns', names.foldlM (processExportName m) fns ≠ .ok fns' := by
  intro names
  induction names with
  | nil =>
    intro name h
    exact absurd h (List.not_mem_nil _)
  | cons hd tl ih =>
    intro name hmem hnone fns fns' hok
    rw [List.foldlM_cons] at hok
    obtain ⟨fns1, hstep, hrest⟩ := except_bind_ok hok
    rcases List.mem_cons.mp hmem with heq | hmemtl
    · subst heq
      unfold processExportName at hstep
      rw [hnone] at hstep
      exact Except.noConfusion hstep
    · exact ih name hmemtl hnone fns1 fns' hrest

lemma buildSetter_bad_name (m : Mod) (name : String)
    (hn : name ∈ m.exports.names)
    (hs : findSpecifierByName m.exports name = none) :
    ∀ fns, buildSetterFunctionDeclarations m ≠ .ok fns := by
  intro fns hok
  unfold buildSetterFunctionDeclarations at hok
  obtain ⟨fns1, _, hok1⟩ := except_bind_ok hok
  obtain ⟨fns2, hfold, _⟩ := except_bind_ok hok1
  exact exportFold_bad_name m m.exports.names name hn hs fns1 fns2 hfold

/-- C8: an export statement wrapping a declaration of an unrecognized kind
fails immediately with an error message reporting the offending
declaration's kind; an export name with no matching specifier record makes
setter synthesis fail its assertion, so no registration call is produced by
`build` for that module. -/
theorem exportErrors_spec (enode : ExportDeclarationNode) (d : Node)
    (hd : enode.declaration = some d) (hk : recognizedDeclKind d = false)
    (m : Mod) (name : String) (hn : name ∈ m.exports.names)
    (hs : findSpecifierByName m.exports name = none) :
    processExportDeclaration enode =
      .error ("unexpected export style, found a declaration of type: " ++
        nodeType d) ∧
    (∀ fns, buildSetterFunctionDeclarations m ≠ .ok fns) ∧
    (∀ anonymous res, build anonymous m ≠ .ok res) := by
  refine ⟨?_, buildSetter_bad_name m name hn hs, ?_⟩
  · unfold processExportDeclaration
    rw [hd]
    cases d <;> first
      | rfl
      | (simp [recognizedDeclKind] at hk)
  · intro anonymous res hok
    unfold build at hok
    obtain ⟨meta, _, hok1⟩ := except_bind_ok hok
    obtain ⟨fns, hfns, _⟩ := except_bind_ok hok1
    exact buildSetter_bad_name m name hn hs fns hfns

/-- Module used by the `C8` witness: it declares an export name `oops`
with no matching specifier record. -/
def wBadMod : Mod :=
  ⟨"bad$$", "bad", "bad.js", emptyCollection,
   ⟨["oops"], [], [], []⟩, [], []⟩

theorem exportErrors_spec_witness :
    (ExportDeclarationNode.mk (some (.otherDeclaration "ModuleDeclaration")) []).declaration
      = some (.otherDeclaration "ModuleDeclaration") ∧
    recognizedDeclKind (.otherDeclaration "ModuleDeclaration") = false ∧
    "oops" ∈ wBadMod.exports.names ∧
    findSpecifierByName wBadMod.exports "oops" = none ∧
    (processExportDeclaration
        ⟨some (.otherDeclaration "ModuleDeclaration"), []⟩ =
      .error ("unexpected export style, found a declaration of type: " ++
        nodeType (.otherDeclaration "ModuleDeclaration")) ∧
    (∀ fns, buildSetterFunctionDeclarations wBadMod ≠ .ok fns) ∧
    (∀ anonymous res, build anonymous wBadMod ≠ .ok res)) :=
  ⟨rfl, rfl, by decide, rfl,
   exportErrors_spec ⟨some (.otherDeclaration "ModuleDeclaration"), []⟩
     (.otherDeclaration "ModuleDeclaration") rfl rfl wBadMod "oops"
     (by decide) rfl⟩

/-- C9: for a module with zero imports and zero exports the hoisted
variable declaration is omitted (the wrapper holds an empty statement at
most) and the registration's setters array is empty; the hoist step emits a
real `var` declaration exactly when there is at least one imported name. -/
theorem emptyModule_spec (m : Mod)
    (h1 : m.imports.names = []) (h2 : m.imports.modules = [])
    (h3 : m.exports.names = []) (h4 : m.exports.modules = []) :
    buildImportedVariables m = .emptyStatement ∧
    build false m = .ok [.expressionStatement (.callExpression
      (.memberExpression (.identifier "System") (.identifier "register") false)
      [.literalStr m.name, .arrayExpression [],
       .functionExpression [.identifier "__es6_export__"]
        [.emptyStatement,
         .returnStatement (.objectExpression
          [.property "init" (.literalStr "setters") (.arrayExpression []),
           .property "init" (.literalStr "execute")
             (.functionExpression []
               (.expressionStatement (.literalStr "use strict") :: m.body))])]])] ∧
    (∀ m' : Mod, m'.imports.names ≠ [] →
      buildImportedVariables m' = .variableDeclaration "var"
        (m'.imports.names.map (fun name => .identifier name))) := by
  refine ⟨?_, ?_, ?_⟩
  · unfold buildImportedVariables
    rw [h1]
    rfl
  · unfold build buildDependenciesMeta buildSetterFunctionDeclarations
      buildImportedVariables
    rw [h1, h2, h3, h4]
    rfl
  · intro m' hne
    unfold buildImportedVariables
    rw [if_pos (List.length_pos.mpr hne)]

/-- Module used by the `C9` witness: no imports, no exports. -/
def wEmptyMod : Mod :=
  ⟨"e$$", "fixtures/e", "e.js", emptyCollection, emptyCollection, [], []⟩

theorem emptyModule_spec_witness :
    wEmptyMod.imports.names = [] ∧
    wEmptyMod.imports.modules = [] ∧
    wEmptyMod.exports.names = [] ∧
    wEmptyMod.exports.modules = [] ∧
    (buildImportedVariables wEmptyMod = .emptyStatement ∧
    build false wEmptyMod = .ok [.expressionStatement (.callExpression
      (.memberExpression (.identifier "System") (.identifier "register") false)
      [.literalStr wEmptyMod.name, .arrayExpression [],
       .functionExpression [.identifier "__es6_export__"]
        [.emptyStatement,
         .returnStatement (.objectExpression
          [.property "init" (.literalStr "setters") (.arrayExpression []),
           .property "init" (.literalStr "execute")
             (.functionExpression []
               (.expressionStatement (.literalStr "use strict") ::
                 wEmptyMod.body))])]])] ∧
    (∀ m' : Mod, m'.imports.names ≠ [] →
      buildImportedVariables m' = .variableDeclaration "var"
        (m'.imports.names.map (fun name => .identifier name)))) :=
  ⟨rfl, rfl, rfl, rfl, emptyModule_spec wEmptyMod rfl rfl rfl rfl⟩

/-! ## Infrastructure for the setter-synthesis claims

`fnByModule` is an insertion-ordered map; the lemmas below track its keys
and bodies through `ensureFn` / `pushStmt` and through the three
`forEach` folds of `buildSetterFunctionDeclarations`. -/

/-- The dependency module an import name resolves to:
`mod.getModule(specifier.declaration.node.source.value)` for
`specifier = mod.imports.findSpecifierByName(name)`. -/
def importResolvedModule (m : Mod) (name : String) : Option ModuleRef :=
  ((findSpecifierByName m.imports name).bind
    (fun s => s.declSourceValue)).bind (getModule m)

/-- The dependency module a sourced export name resolves to (`none` for a
plain local export, which the exports loop skips). -/
def exportResolvedModule (m : Mod) (name : String) : Option ModuleRef :=
  ((findSpecifierByName m.exports name).bind
    (fun s => s.declSourceValue)).bind (getModule m)

/-- The keys (dependency module ids) of the `fnByModule` map. -/
def fnKeys (fns : List (String × List Node)) : List String := fns.map Prod.fst

/-- Statement `t` occurs in the body filed under key `I` of `fns`. -/
def stmtIn (fns : List (String × List Node)) (I : String) (t : Node) : Prop :=
  ∃ b, (I, b) ∈ fns ∧ t ∈ b

/-- Provenance of a statement inside the setter function named `I`: it was
synthesized from a specifier resolving to the dependency module whose id is
`I` — either an import assignment or a sourced re-export republish. -/
def SetterStmtFor (m : Mod) (I : String) (t : Node) : Prop :=
  (∃ name spec dm, name ∈ m.imports.names ∧
    findSpecifierByName m.imports name = some spec ∧
    importResolvedModule m name = some dm ∧ dm.id = I ∧
    t = importSetterStmt spec) ∨
  (∃ name spec dm, name ∈ m.exports.names ∧
    findSpecifierByName m.exports name = some spec ∧
    exportResolvedModule m name = some dm ∧ dm.id = I ∧
    t = exportSetterStmt spec)

lemma any_key_iff (fns : List (String × List Node)) (id : String) :
    (fns.any (fun p => p.1 = id)) = true ↔ id ∈ fnKeys fns := by
  simp [fnKeys, List.any_eq_true, List.mem_map]

lemma ensureFn_sub {fns : List (String × List Node)} {id : String}
    {p : String × List Node} (h : p ∈ fns) : p ∈ ensureFn fns id := by
  unfold ensureFn
  split
  · exact h
  · exact List.mem_append_left _ h

lemma ensureFn_elim {fns : List (String × List Node)} {id : String}
    {p : String × List Node} (h : p ∈ ensureFn fns id) :
    p ∈ fns ∨ p = (id, []) := by
  unfold ensureFn at h
  split at h
  · exact Or.inl h
  · rcases List.mem_append.mp h with h' | h'
    · exact Or.inl h'
    · exact Or.inr (List.mem_singleton.mp h')

lemma ensureFn_key_exists (fns : List (String × List Node)) (id : String) :
    ∃ b, (id, b) ∈ ensureFn fns id := by
  unfold ensureFn
  by_cases hk : fns.any (fun p => p.1 = id) = true
  · rw [if_pos hk]
    obtain ⟨p, hp, he⟩ := List.any_eq_true.mp hk
    have he' : p.1 = id := of_decide_eq_true he
    exact ⟨p.2, by rw [← he']; exact hp⟩
  · rw [if_neg hk]
    exact ⟨[], List.mem_append_right _ (List.mem_singleton.mpr rfl)⟩

lemma fnKeys_ensureFn_mem {fns : List (String × List Node)} {id J : String} :
    J ∈ fnKeys (ensureFn fns id) ↔ J ∈ fnKeys fns ∨ J = id := by
  unfold ensureFn
  split
  · next hk =>
    constructor
    · exact Or.inl
    · rintro (h | rfl)
      · exact h
      · exact (any_key_iff fns _).mp hk
  · simp [fnKeys]

lemma fnKeys_ensureFn_nodup {fns : List (String × List Node)} {id : String}
    (h : (fnKeys fns).Nodup) : (fnKeys (ensureFn fns id)).Nodup := by
  unfold ensureFn
  split
  · exact h
  · next hk =>
    have hnm : id ∉ fnKeys fns := fun hin =>
      hk ((any_key_iff fns id).mpr hin)
    simp only [fnKeys, List.map_append, List.map_cons, List.map_nil]
    simp only [fnKeys] at h hnm
    simp [List.nodup_append, h, hnm]

lemma fnKeys_pushStmt (fns : List (String × List Node)) (id : String)
    (t : Node) : fnKeys (pushStmt fns id t) = fnKeys (ensureFn fns id) := by
  unfold pushStmt fnKeys
  rw [List.map_map]
  apply List.map_congr_left
  intro p _
  by_cases hp : p.1 = id
  · simp [hp]
  · simp [hp]

lemma stmtIn_pushStmt_self (fns : List (String × List Node)) (id : String)
    (t : Node) : stmtIn (pushStmt fns id t) id t := by
  obtain ⟨b, hb⟩ := ensureFn_key_exists fns id
  refine ⟨b ++ [t], ?_, List.mem_append_right _ (List.mem_singleton.mpr rfl)⟩
  unfold pushStmt
  have : ((id, b) : String × List Node).1 = id := rfl
  exact List.mem_map.mpr ⟨(id, b), hb, by simp⟩

lemma stmtIn_pushStmt_mono {fns : List (String × List Node)} {J : String}
    {t : Node} (id : String) (t0 : Node) (h : stmtIn fns J t) :
    stmtIn (pushStmt fns id t0) J t := by
  obtain ⟨b, hb, ht⟩ := h
  by_cases hJ : J = id
  · subst hJ
    refine ⟨b ++ [t0], ?_, List.mem_append_left _ ht⟩
    exact List.mem_map.mpr ⟨(J, b), ensureFn_sub hb, by simp⟩
  · refine ⟨b, ?_, ht⟩
    exact List.mem_map.mpr ⟨(J, b), ensureFn_sub hb, by simp [hJ]⟩

lemma allStmts_pushStmt {m : Mod} {fns : List (String × List Node)}
    {id : String} {t0 : Node}
    (hall : ∀ p ∈ fns, ∀ t ∈ p.2, SetterStmtFor m p.1 t)
    (h0 : SetterStmtFor m id t0) :
    ∀ p ∈ pushStmt fns id t0, ∀ t ∈ p.2, SetterStmtFor m p.1 t := by
  intro p hp t ht
  obtain ⟨q, hq, hpq⟩ := List.mem_map.mp hp
  rcases ensureFn_elim hq with hq' | hq'
  · by_cases hqi : q.1 = id
    · rw [if_pos hqi] at hpq
      subst hpq
      simp only at ht ⊢
      rcases List.mem_append.mp ht with ht' | ht'
      · exact hall q hq' t ht'
      · rw [List.mem_singleton.mp ht', hqi]
        exact h0
    · rw [if_neg hqi] at hpq
      subst hpq
      exact hall q hq' t ht
  · subst hq'
    rw [if_pos rfl] at hpq
    subst hpq
    simp only at ht ⊢
    rcases List.mem_append.mp ht with ht' | ht'
    · exact absurd ht' (List.not_mem_nil t)
    · rw [List.mem_singleton.mp ht']
      exact h0

lemma processImportName_ok {m : Mod} {fns fns' : List (String × List Node)}
    {name : String} (h : processImportName m fns name = .ok fns') :
    ∃ spec dm, findSpecifierByName m.imports name = some spec ∧
      importResolvedModule m name = some dm ∧
      fns' = pushStmt fns dm.id (importSetterStmt spec) := by
  unfold processImportName at h
  cases hf : findSpecifierByName m.imports name with
  | none => rw [hf] at h; exact Except.noConfusion h
  | some spec =>
    rw [hf] at h
    simp only at h
    cases hv : spec.declSourceValue with
    | none => rw [hv] at h; exact Except.noConfusion h
    | some path =>
      rw [hv] at h
      simp only at h
      cases hg : getModule m path with
      | none => rw [hg] at h; exact Except.noConfusion h
      | some dm =>
        rw [hg] at h
        simp only at h
        injection h with h
        exact ⟨spec, dm, rfl,
          by simp [importResolvedModule, hf, hv, hg], h.symm⟩

lemma processExportName_ok {m : Mod} {fns fns' : List (String × List Node)}
    {name : String} (h : processExportName m fns name = .ok fns') :
    ∃ spec, findSpecifierByName m.exports name = some spec ∧
      ((exportResolvedModule m name = none ∧ fns' = fns) ∨
       (∃ dm, exportResolvedModule m name = some dm ∧
         fns' = pushStmt fns dm.id (exportSetterStmt spec))) := by
  unfold processExportName at h
  cases hf : findSpecifierByName m.exports name with
  | none => rw [hf] at h; exact Except.noConfusion h
  | some spec =>
    rw [hf] at h
    simp only at h
    cases hv : spec.declSourceValue with
    | none =>
      rw [hv] at h
      injection h with h
      exact ⟨spec, rfl, Or.inl
        ⟨by simp [exportResolvedModule, hf, hv], h.symm⟩⟩
    | some path =>
      rw [hv] at h
      simp only at h
      cases hg : getModule m path with
      | none => rw [hg] at h; exact Except.noConfusion h
      | some dm =>
        rw [hg] at h
        simp only at h
        injection h with h
        exact ⟨spec, rfl, Or.inr ⟨dm,
          by simp [exportResolvedModule, hf, hv, hg], h.symm⟩⟩

lemma foldl_ensureFn_keys (l : List ModuleRef) :
    ∀ (fns : List (String × List Node)) (J : String),
    J ∈ fnKeys (l.foldl (fun fs dm => ensureFn fs dm.id) fns) ↔
      J ∈ fnKeys fns ∨ ∃ M ∈ l, M.id = J := by
  induction l with
  | nil => simp
  | cons hd tl ih =>
    intro fns J
    rw [List.foldl_cons, ih, fnKeys_ensureFn_mem]
    constructor
    · rintro ((h | h) | h)
      · exact Or.inl h
      · exact Or.inr ⟨hd, List.mem_cons_self _ _, h.symm⟩
      · obtain ⟨M, hM, hMe⟩ := h
        exact Or.inr ⟨M, List.mem_cons_of_mem _ hM, hMe⟩
    · rintro (h | ⟨M, hM, hMe⟩)
      · exact Or.inl (Or.inl h)
      · rcases List.mem_cons.mp hM with heq | hmemtl
        · subst heq; exact Or.inl (Or.inr hMe.symm)
        · exact Or.inr ⟨M, hmemtl, hMe⟩

lemma foldl_ensureFn_nodup (l : List ModuleRef) :
    ∀ (fns : List (String × List Node)), (fnKeys fns).Nodup →
    (fnKeys (l.foldl (fun fs dm => ensureFn fs dm.id) fns)).Nodup := by
  induction l with
  | nil => intro _ h; exact h
  | cons hd tl ih =>
    intro fns h
    rw [List.foldl_cons]
    exact ih _ (fnKeys_ensureFn_nodup h)

lemma foldl_ensureFn_bodies (l : List ModuleRef) :
    ∀ (fns : List (String × List Node)), (∀ p ∈ fns, p.2 = []) →
    ∀ p ∈ l.foldl (fun fs dm => ensureFn fs dm.id) fns, p.2 = [] := by
  induction l with
  | nil => intro _ h; exact h
  | cons hd tl ih =>
    intro fns h
    rw [List.foldl_cons]
    apply ih
    intro p hp
    rcases ensureFn_elim hp with hp' | hp'
    · exact h p hp'
    · rw [hp']

lemma importFold_props (m : Mod) :
    ∀ (names : List String) (fns fns' : List (String × List Node)),
    names.foldlM (processImportName m) fns = .ok fns' →
    (∀ J t, stmtIn fns J t → stmtIn fns' J t) ∧
    (∀ J, J ∈ fnKeys fns → J ∈ fnKeys fns') ∧
    ((fnKeys fns).Nodup → (fnKeys fns').Nodup) ∧
    (∀ J, J ∈ fnKeys fns' → J ∈ fnKeys fns ∨
      ∃ name ∈ names, ∃ dm, importResolvedModule m name = some dm ∧
        dm.id = J) ∧
    (∀ name ∈ names, ∀ spec dm,
      findSpecifierByName m.imports name = some spec →
      importResolvedModule m name = some dm →
      stmtIn fns' dm.id (importSetterStmt spec)) ∧
    ((∀ x ∈ names, x ∈ m.imports.names) →
      (∀ p ∈ fns, ∀ t ∈ p.2, SetterStmtFor m p.1 t) →
      (∀ p ∈ fns', ∀ t ∈ p.2, SetterStmtFor m p.1 t)) := by
  intro names
  induction names with
  | nil =>
    intro fns fns' h
    rw [List.foldlM_nil] at h
    have h' : Except.ok fns = Except.ok fns' := h
    injection h' with h'
    subst h'
    refine ⟨fun _ _ ht => ht, fun _ ht => ht, fun ht => ht, ?_, ?_, ?_⟩
    · exact fun J hJ => Or.inl hJ
    · intro name hname
      exact absurd hname (List.not_mem_nil _)
    · exact fun _ hall => hall
  | cons hd tl ih =>
    intro fns fns' h
    rw [List.foldlM_cons] at h
    obtain ⟨fns1, hstep, hrest⟩ := except_bind_ok h
    obtain ⟨spec0, dm0, hfind0, hres0, heq1⟩ := processImportName_ok hstep
    subst heq1
    obtain ⟨ih1, ih2, ih3, ih4, ih5, ih6⟩ := ih _ fns' hrest
    refine ⟨?_, ?_, ?_, ?_, ?_, ?_⟩
    · intro J t ht
      exact ih1 J t (stmtIn_pushStmt_mono _ _ ht)
    · intro J hJ
      apply ih2
      rw [fnKeys_pushStmt]
      exact fnKeys_ensureFn_mem.mpr (Or.inl hJ)
    · intro hnd
      apply ih3
      rw [fnKeys_pushStmt]
      exact fnKeys_ensureFn_nodup hnd
    · intro J hJ
      rcases ih4 J hJ with hJ1 | ⟨name, hname, dm, hdm, hdme⟩
      · rw [fnKeys_pushStmt] at hJ1
        rcases fnKeys_ensureFn_mem.mp hJ1 with hJ2 | hJ2
        · exact Or.inl hJ2
        · exact Or.inr ⟨hd, List.mem_cons_self _ _, dm0, hres0, hJ2.symm⟩
      · exact Or.inr ⟨name, List.mem_cons_of_mem _ hname, dm, hdm, hdme⟩
    · intro name hname spec dm hfind hres
      rcases List.mem_cons.mp hname with heq | hmemtl
      · subst heq
        rw [hfind0] at hfind
        injection hfind with hfind
        subst hfind
        rw [hres0] at hres
        injection hres with hres
        subst hres
        exact ih1 _ _ (stmtIn_pushStmt_self fns dm0.id (importSetterStmt spec0))
      · exact ih5 name hmemtl spec dm hfind hres
    · intro hsub hall
      apply ih6 (fun x hx => hsub x (List.mem_cons_of_mem _ hx))
      apply allStmts_pushStmt hall
      exact Or.inl ⟨hd, spec0, dm0, hsub hd (List.mem_cons_self _ _),
        hfind0, hres0, rfl, rfl⟩

lemma exportFold_props (m : Mod) :
    ∀ (names : List String) (fns fns' : List (String × List Node)),
    names.foldlM (processExportName m) fns = .ok fns' →
    (∀ J t, stmtIn fns J t → stmtIn fns' J t) ∧
    (∀ J, J ∈ fnKeys fns → J ∈ fnKeys fns') ∧
    ((fnKeys fns).Nodup → (fnKeys fns').Nodup) ∧
    (∀ J, J ∈ fnKeys fns' → J ∈ fnKeys fns ∨
      ∃ name ∈ names, ∃ dm, exportResolvedModule m name = some dm ∧
        dm.id = J) ∧
    (∀ name ∈ names, ∀ spec dm,
      findSpecifierByName m.exports name = some spec →
      exportResolvedModule m name = some dm →
      stmtIn fns' dm.id (exportSetterStmt spec)) ∧
    ((∀ x ∈ names, x ∈ m.exports.names) →
      (∀ p ∈ fns, ∀ t ∈ p.2, SetterStmtFor m p.1 t) →
      (∀ p ∈ fns', ∀ t ∈ p.2, SetterStmtFor m p.1 t)) := by
  intro names
  induction names with
  | nil =>
    intro fns fns' h
    rw [List.foldlM_nil] at h
    have h' : Except.ok fns = Except.ok fns' := h
    injection h' with h'
    subst h'
    refine ⟨fun _ _ ht => ht, fun _ ht => ht, fun ht => ht, ?_, ?_, ?_⟩
    · exact fun J hJ => Or.inl hJ
    · intro name hname
      exact absurd hname (List.not_mem_nil _)
    · exact fun _ hall => hall
  | cons hd tl ih =>
    intro fns fns' h
    rw [List.foldlM_cons] at h
    obtain ⟨fns1, hstep, hrest⟩ := except_bind_ok h
    obtain ⟨spec0, hfind0, hcase⟩ := processExportName_ok hstep
    rcases hcase with ⟨hres0, heq1⟩ | ⟨dm0, hres0, heq1⟩
    · -- unsourced export: the map is unchanged
      subst heq1
      obtain ⟨ih1, ih2, ih3, ih4, ih5, ih6⟩ := ih _ fns' hrest
      refine ⟨ih1, ih2, ih3, ?_, ?_, ?_⟩
      · intro J hJ
        rcases ih4 J hJ with hJ1 | ⟨name, hname, dm, hdm, hdme⟩
        · exact Or.inl hJ1
        · exact Or.inr ⟨name, List.mem_cons_of_mem _ hname, dm, hdm, hdme⟩
      · intro name hname spec dm hfind hres
        rcases List.mem_cons.mp hname with heq | hmemtl
        · subst heq
          rw [hres0] at hres
          exact Option.noConfusion hres
        · exact ih5 name hmemtl spec dm hfind hres
      · intro hsub hall
        exact ih6 (fun x hx => hsub x (List.mem_cons_of_mem _ hx)) hall
    · subst heq1
      obtain ⟨ih1, ih2, ih3, ih4, ih5, ih6⟩ := ih _ fns' hrest
      refine ⟨?_, ?_, ?_, ?_, ?_, ?_⟩
      · intro J t ht
        exact ih1 J t (stmtIn_pushStmt_mono _ _ ht)
      · intro J hJ
        apply ih2
        rw [fnKeys_pushStmt]
        exact fnKeys_ensureFn_mem.mpr (Or.inl hJ)
      · intro hnd
        apply ih3
        rw [fnKeys_pushStmt]
        exact fnKeys_ensureFn_nodup hnd
      · intro J hJ
        rcases ih4 J hJ with hJ1 | ⟨name, hname, dm, hdm, hdme⟩
        · rw [fnKeys_pushStmt] at hJ1
          rcases fnKeys_ensureFn_mem.mp hJ1 with hJ2 | hJ2
          · exact Or.inl hJ2
          · exact Or.inr ⟨hd, List.mem_cons_self _ _, dm0, hres0, hJ2.symm⟩
        · exact Or.inr ⟨name, List.mem_cons_of_mem _ hname, dm, hdm, hdme⟩
      · intro name hname spec dm hfind hres
        rcases List.mem_cons.mp hname with heq | hmemtl
        · subst heq
          rw [hfind0] at hfind
          injection hfind with hfind
          subst hfind
          rw [hres0] at hres
          injection hres with hres
          subst hres
          exact ih1 _ _ (stmtIn_pushStmt_self fns dm0.id (exportSetterStmt spec0))
        · exact ih5 name hmemtl spec dm hfind hres
      · intro hsub hall
        apply ih6 (fun x hx => hsub x (List.mem_cons_of_mem _ hx))
        apply allStmts_pushStmt hall
        exact Or.inr ⟨hd, spec0, dm0, hsub hd (List.mem_cons_self _ _),
          hfind0, hres0, rfl, rfl⟩

/-- The declared name of a setter function declaration node. -/
def fnName : Node → Option String
  | .functionDeclaration (.identifier i) _ _ => some i
  | _ => none

lemma stmtIn_key {fns : List (String × List Node)} {I : String} {t : Node}
    (h : stmtIn fns I t) : I ∈ fnKeys fns := by
  obtain ⟨b, hb, _⟩ := h
  exact List.mem_map.mpr ⟨(I, b), hb, rfl⟩

lemma importResolvedModule_find {m : Mod} {name : String} {dm : ModuleRef}
    (h : importResolvedModule m name = some dm) :
    ∃ spec, findSpecifierByName m.imports name = some spec := by
  unfold importResolvedModule at h
  cases hf : findSpecifierByName m.imports name with
  | none => rw [hf] at h; simp at h
  | some spec => exact ⟨spec, rfl⟩

lemma exportResolvedModule_find {m : Mod} {name : String} {dm : ModuleRef}
    (h : exportResolvedModule m name = some dm) :
    ∃ spec, findSpecifierByName m.exports name = some spec := by
  unfold exportResolvedModule at h
  cases hf : findSpecifierByName m.exports name with
  | none => rw [hf] at h; simp at h
  | some spec => exact ⟨spec, rfl⟩

lemma buildSetter_inv {m : Mod} {fns : List Node}
    (h : buildSetterFunctionDeclarations m = .ok fns) :
    ∃ fns1 fns2 : List (String × List Node),
      m.imports.names.foldlM (processImportName m)
        (m.imports.modules.foldl (fun fs dm => ensureFn fs dm.id) [])
        = .ok fns1 ∧
      m.exports.names.foldlM (processExportName m) fns1 = .ok fns2 ∧
      fns = fns2.map (fun p =>
        Node.functionDeclaration (.identifier p.1) [.identifier "m"] p.2) := by
  unfold buildSetterFunctionDeclarations at h
  obtain ⟨fns1, h1, h'⟩ := except_bind_ok h
  obtain ⟨fns2, h2, h''⟩ := except_bind_ok h'
  refine ⟨fns1, fns2, h1, h2, ?_⟩
  split at h''
  · injection h'' with h''
    exact h''.symm
  · next hlen =>
    injection h'' with h''
    have h0 : fns2 = [] := by
      cases fns2 with
      | nil => rfl
      | cons a l => exact absurd (by simp) hlen
    subst h0
    exact h''.symm

/-- C4: for a module whose collections are consistent enough for metadata
building and setter synthesis to succeed, every distinct dependency module
receives exactly one synthesized setter function — every imported module
unconditionally, and every re-export-source module as soon as some sourced
export name resolves to it (so a module referenced only by sourced
re-exports, or either side of a circular import pair, is covered); the
emitted setter names are pairwise distinct; the registration's setters and
dependency-path arrays have equal length and are index-aligned over one
shared required-module list; and every statement of the setter keyed by a
dependency id was synthesized from a specifier resolving to that very
dependency. -/
theorem settersAlignment_spec (m : Mod) (meta : DepsMeta) (fns : List Node)
    (hmeta : buildDependenciesMeta m = .ok meta)
    (hfns : buildSetterFunctionDeclarations m = .ok fns) :
    (∃ entries : List (String × List Node),
      fns = entries.map (fun p =>
        Node.functionDeclaration (.identifier p.1) [.identifier "m"] p.2) ∧
      (fnKeys entries).Nodup ∧
      (∀ M ∈ m.imports.modules, M.id ∈ fnKeys entries) ∧
      (∀ M ∈ m.exports.modules,
        (∃ name ∈ m.exports.names, exportResolvedModule m name = some M) →
        M.id ∈ fnKeys entries) ∧
      (∀ p ∈ entries, ∀ t ∈ p.2, SetterStmtFor m p.1 t)) ∧
    meta.setters.length = meta.deps.length ∧
    (∃ req : List ModuleRef,
      meta.setters = req.map (fun M => Node.identifier M.id) ∧
      meta.deps = req.map (fun M => Node.literalStr (depPathChoice m M))) := by
  obtain ⟨fns1, fns2, h1, h2, heq⟩ := buildSetter_inv hfns
  obtain ⟨i1, i2, i3, _, i5, i6⟩ := importFold_props m m.imports.names _ fns1 h1
  obtain ⟨e1, e2, e3, _, e5, e6⟩ := exportFold_props m m.exports.names fns1 fns2 h2
  obtain ⟨hsetters, hdeps⟩ := depsMeta_char m meta hmeta
  refine ⟨⟨fns2, heq, ?_, ?_, ?_, ?_⟩, ?_, ?_⟩
  · exact e3 (i3 (foldl_ensureFn_nodup _ [] List.nodup_nil))
  · intro M hM
    apply e2
    apply i2
    exact (foldl_ensureFn_keys _ [] M.id).mpr (Or.inr ⟨M, hM, rfl⟩)
  · intro M _ hres
    obtain ⟨name, hname, hres'⟩ := hres
    obtain ⟨spec, hspec⟩ := exportResolvedModule_find hres'
    exact stmtIn_key (e5 name hname spec M hspec hres')
  · apply e6 (fun x hx => hx)
    apply i6 (fun x hx => hx)
    intro p hp t ht
    have hb := foldl_ensureFn_bodies m.imports.modules []
      (fun q hq => absurd hq (List.not_mem_nil q)) p hp
    rw [hb] at ht
    exact absurd ht (List.not_mem_nil t)
  · rw [hsetters, hdeps]
    simp
  · exact ⟨firstOccurrenceDedup (m.imports.modules ++ m.exports.modules),
      hsetters, hdeps⟩

/-- C5: for an import specifier sourced from a dependency, the synthesized
setter for that dependency contains the assignment generated for it, and
that assignment reads the named export key off the setter's parameter when
the specifier has a key, or assigns the entire export-object parameter to
the local variable when the specifier is a namespace-style binding with no
key. -/
theorem importSetterShape_spec (m : Mod) (fns : List Node) (name : String)
    (spec : SpecifierRec) (depMod : ModuleRef)
    (hfns : buildSetterFunctionDeclarations m = .ok fns)
    (hname : name ∈ m.imports.names)
    (hspec : findSpecifierByName m.imports name = some spec)
    (hres : importResolvedModule m name = some depMod) :
    (∃ body, Node.functionDeclaration (.identifier depMod.id)
        [.identifier "m"] body ∈ fns ∧
      importSetterStmt spec ∈ body) ∧
    (∀ k, spec.fromKey = some k →
      importSetterStmt spec = .expressionStatement (.assignmentExpression "="
        (.identifier spec.name)
        (.memberExpression (.identifier "m") (.literalStr k) true))) ∧
    (spec.fromKey = none →
      importSetterStmt spec = .expressionStatement (.assignmentExpression "="
        (.identifier spec.name) (.identifier "m"))) := by
  obtain ⟨fns1, fns2, h1, h2, heq⟩ := buildSetter_inv hfns
  obtain ⟨_, _, _, _, i5, _⟩ := importFold_props m m.imports.names _ fns1 h1
  obtain ⟨e1, _, _, _, _, _⟩ := exportFold_props m m.exports.names fns1 fns2 h2
  refine ⟨?_, ?_, ?_⟩
  · have hin : stmtIn fns2 depMod.id (importSetterStmt spec) :=
      e1 _ _ (i5 name hname spec depMod hspec hres)
    obtain ⟨b, hb, ht⟩ := hin
    refine ⟨b, ?_, ht⟩
    rw [heq]
    exact List.mem_map.mpr ⟨(depMod.id, b), hb, rfl⟩
  · intro k hk
    unfold importSetterStmt
    rw [hk]
  · intro hk
    unfold importSetterStmt
    rw [hk]

/-- C10: the identifiers placed in the registration's setters array are
exactly the names of the setter function declarations emitted into the
wrapper — every setters entry references a declared function and no setter
function is declared whose name is absent from the setters array — given
the data-model invariants that import names resolve to modules of
the imports collection and sourced export names resolve to modules of
the exports collection, each re-export-source module being cited by at
least one export name. -/
theorem settersNames_spec (m : Mod) (meta : DepsMeta) (fns : List Node)
    (hmeta : buildDependenciesMeta m = .ok meta)
    (hfns : buildSetterFunctionDeclarations m = .ok fns)
    (himp : ∀ name ∈ m.imports.names,
      ∃ M ∈ m.imports.modules, importResolvedModule m name = some M)
    (hexp1 : ∀ name ∈ m.exports.names,
      exportResolvedModule m name = none ∨
      ∃ M ∈ m.exports.modules, exportResolvedModule m name = some M)
    (hexp2 : ∀ M ∈ m.exports.modules,
      ∃ name ∈ m.exports.names, exportResolvedModule m name = some M) :
    ∀ I : String, Node.identifier I ∈ meta.setters ↔
      ∃ fn ∈ fns, fnName fn = some I := by
  obtain ⟨fns1, fns2, h1, h2, heq⟩ := buildSetter_inv hfns
  obtain ⟨_, i2, _, i4, i5, _⟩ := importFold_props m m.imports.names _ fns1 h1
  obtain ⟨e1, e2, _, e4, e5, _⟩ := exportFold_props m m.exports.names fns1 fns2 h2
  obtain ⟨hsetters, _⟩ := depsMeta_char m meta hmeta
  intro I
  have hfns_keys : (∃ fn ∈ fns, fnName fn = some I) ↔ I ∈ fnKeys fns2 := by
    rw [heq]
    constructor
    · rintro ⟨fn, hfn, hname⟩
      obtain ⟨p, hp, hpe⟩ := List.mem_map.mp hfn
      rw [← hpe] at hname
      unfold fnName at hname
      injection hname with hname
      rw [← hname]
      exact List.mem_map.mpr ⟨p, hp, rfl⟩
    · intro hI
      obtain ⟨p, hp, hpe⟩ := List.mem_map.mp hI
      exact ⟨Node.functionDeclaration (.identifier p.1) [.identifier "m"] p.2,
        List.mem_map.mpr ⟨p, hp, rfl⟩, by rw [hpe]; rfl⟩
  have hset_mem : Node.identifier I ∈ meta.setters ↔
      ∃ M, (M ∈ m.imports.modules ∨ M ∈ m.exports.modules) ∧ M.id = I := by
    rw [hsetters]
    constructor
    · intro hI
      obtain ⟨M, hM, hMe⟩ := List.mem_map.mp hI
      injection hMe with hMe
      exact ⟨M, by
        have := mem_foldl_insertIfAbsent.mp hM
        rcases this with h' | h'
        · exact absurd h' (List.not_mem_nil M)
        · exact (List.mem_append.mp h').imp id id, hMe⟩
    · rintro ⟨M, hM, hMe⟩
      refine List.mem_map.mpr ⟨M, ?_, by rw [hMe]⟩
      exact mem_foldl_insertIfAbsent.mpr
        (Or.inr (List.mem_append.mpr hM))
  rw [hfns_keys, hset_mem]
  constructor
  · rintro ⟨M, hM | hM, hMe⟩
    · apply e2
      apply i2
      exact (foldl_ensureFn_keys _ [] I).mpr (Or.inr ⟨M, hM, hMe⟩)
    · obtain ⟨name, hname, hres⟩ := hexp2 M hM
      obtain ⟨spec, hspec⟩ := exportResolvedModule_find hres
      have := stmtIn_key (e5 name hname spec M hspec hres)
      rw [hMe] at this
      exact this
  · intro hI
    rcases e4 I hI with hI1 | ⟨name, hname, dm, hdm, hdme⟩
    · rcases i4 I hI1 with hI0 | ⟨name, hname, dm, hdm, hdme⟩
      · rcases (foldl_ensureFn_keys _ [] I).mp hI0 with h' | ⟨M, hM, hMe⟩
        · exact absurd h' (by simp [fnKeys])
        · exact ⟨M, Or.inl hM, hMe⟩
      · obtain ⟨M, hM, hres⟩ := himp name hname
        rw [hdm] at hres
        injection hres with hres
        exact ⟨M, Or.inl hM, by rw [← hres]; exact hdme⟩
    · rcases hexp1 name hname with hnone | ⟨M, hM, hres⟩
      · rw [hdm] at hnone
        exact absurd hnone (Option.noConfusion)
      · rw [hdm] at hres
        injection hres with hres
        exact ⟨M, Or.inr hM, by rw [← hres]; exact hdme⟩

/-! ## Concrete witness modules for the setter claims -/

/-- Dependency side of the `C4` witness: one half of a circular pair in
which `a.js` imports `{x}` from `b.js` while `b.js` imports `{y}` from
`a.js`. -/
def wCircB : ModuleRef := ⟨21, "circ$b$$", "b.js"⟩

/-- The `a.js` half of the circular pair: imports `{x}` from `./b` and
locally exports `y` (which `b.js` imports back). -/
def wCircAMod : Mod :=
  ⟨"circ$a$$", "circ/a", "a.js",
   ⟨["x"], [wCircB], [⟨some wCircB, "./b"⟩], [⟨"x", some "x", some "./b"⟩]⟩,
   ⟨["y"], [], [⟨none, ""⟩], [⟨"y", some "y", none⟩]⟩,
   [("./b", wCircB)], []⟩

theorem settersAlignment_spec_witness :
    buildDependenciesMeta wCircAMod =
      .ok ⟨[.identifier "circ$b$$"], [.literalStr "./b"]⟩ ∧
    buildSetterFunctionDeclarations wCircAMod =
      .ok [.functionDeclaration (.identifier "circ$b$$") [.identifier "m"]
        [.expressionStatement (.assignmentExpression "=" (.identifier "x")
          (.memberExpression (.identifier "m") (.literalStr "x") true))]] ∧
    ((∃ entries : List (String × List Node),
      [Node.functionDeclaration (.identifier "circ$b$$") [.identifier "m"]
        [.expressionStatement (.assignmentExpression "=" (.identifier "x")
          (.memberExpression (.identifier "m") (.literalStr "x") true))]] =
        entries.map (fun p =>
          Node.functionDeclaration (.identifier p.1) [.identifier "m"] p.2) ∧
      (fnKeys entries).Nodup ∧
      (∀ M ∈ wCircAMod.imports.modules, M.id ∈ fnKeys entries) ∧
      (∀ M ∈ wCircAMod.exports.modules,
        (∃ name ∈ wCircAMod.exports.names,
          exportResolvedModule wCircAMod name = some M) →
        M.id ∈ fnKeys entries) ∧
      (∀ p ∈ entries, ∀ t ∈ p.2, SetterStmtFor wCircAMod p.1 t)) ∧
    (DepsMeta.mk [.identifier "circ$b$$"] [.literalStr "./b"]).setters.length =
      (DepsMeta.mk [.identifier "circ$b$$"] [.literalStr "./b"]).deps.length ∧
    (∃ req : List ModuleRef,
      (DepsMeta.mk [.identifier "circ$b$$"] [.literalStr "./b"]).setters =
        req.map (fun M => Node.identifier M.id) ∧
      (DepsMeta.mk [.identifier "circ$b$$"] [.literalStr "./b"]).deps =
        req.map (fun M => Node.literalStr (depPathChoice wCircAMod M)))) :=
  ⟨rfl, rfl,
   settersAlignment_spec wCircAMod
     ⟨[.identifier "circ$b$$"], [.literalStr "./b"]⟩
     [.functionDeclaration (.identifier "circ$b$$") [.identifier "m"]
       [.expressionStatement (.assignmentExpression "=" (.identifier "x")
         (.memberExpression (.identifier "m") (.literalStr "x") true))]]
     rfl rfl⟩

/-- Dependency of the `C5` witness: the `./m` module of
`import * as ns from './m'`. -/
def wNsM : ModuleRef := ⟨31, "ns$m$$", "m.js"⟩

/-- The `C5` witness module: `import * as ns from './m'` — its sole import
specifier has no remote key (namespace-style binding). -/
def wNsMod : Mod :=
  ⟨"ns$a$$", "ns/a", "a.js",
   ⟨["ns"], [wNsM], [⟨some wNsM, "./m"⟩], [⟨"ns", none, some "./m"⟩]⟩,
   emptyCollection, [("./m", wNsM)], []⟩

theorem importSetterShape_spec_witness :
    buildSetterFunctionDeclarations wNsMod =
      .ok [.functionDeclaration (.identifier "ns$m$$") [.identifier "m"]
        [.expressionStatement (.assignmentExpression "=" (.identifier "ns")
          (.identifier "m"))]] ∧
    "ns" ∈ wNsMod.imports.names ∧
    findSpecifierByName wNsMod.imports "ns" =
      some ⟨"ns", none, some "./m"⟩ ∧
    importResolvedModule wNsMod "ns" = some wNsM ∧
    ((∃ body, Node.functionDeclaration (.identifier wNsM.id)
        [.identifier "m"] body ∈
          [Node.functionDeclaration (.identifier "ns$m$$") [.identifier "m"]
            [.expressionStatement (.assignmentExpression "=" (.identifier "ns")
              (.identifier "m"))]] ∧
      importSetterStmt ⟨"ns", none, some "./m"⟩ ∈ body) ∧
    (∀ k, (SpecifierRec.mk "ns" none (some "./m")).fromKey = some k →
      importSetterStmt ⟨"ns", none, some "./m"⟩ =
        .expressionStatement (.assignmentExpression "="
          (.identifier (SpecifierRec.mk "ns" none (some "./m")).name)
          (.memberExpression (.identifier "m") (.literalStr k) true))) ∧
    ((SpecifierRec.mk "ns" none (some "./m")).fromKey = none →
      importSetterStmt ⟨"ns", none, some "./m"⟩ =
        .expressionStatement (.assignmentExpression "="
          (.identifier (SpecifierRec.mk "ns" none (some "./m")).name)
          (.identifier "m")))) :=
  ⟨rfl, by decide, rfl, rfl,
   importSetterShape_spec wNsMod
     [.functionDeclaration (.identifier "ns$m$$") [.identifier "m"]
       [.expressionStatement (.assignmentExpression "=" (.identifier "ns")
         (.identifier "m"))]]
     "ns" ⟨"ns", none, some "./m"⟩ wNsM rfl (by decide) rfl rfl⟩

theorem settersNames_spec_witness :
    buildDependenciesMeta wMixMod =
      .ok ⟨[.identifier "b$$"], [.literalStr "./b"]⟩ ∧
    buildSetterFunctionDeclarations wMixMod =
      .ok [.functionDeclaration (.identifier "b$$") [.identifier "m"]
        [.expressionStatement (.assignmentExpression "=" (.identifier "x")
          (.memberExpression (.identifier "m") (.literalStr "x") true)),
         .expressionStatement (.callExpression (.identifier "__es6_export__")
          [.literalStr "z",
           .memberExpression (.identifier "m") (.literalStr "z") true])]] ∧
    (∀ name ∈ wMixMod.imports.names,
      ∃ M ∈ wMixMod.imports.modules,
        importResolvedModule wMixMod name = some M) ∧
    (∀ name ∈ wMixMod.exports.names,
      exportResolvedModule wMixMod name = none ∨
      ∃ M ∈ wMixMod.exports.modules,
        exportResolvedModule wMixMod name = some M) ∧
    (∀ M ∈ wMixMod.exports.modules,
      ∃ name ∈ wMixMod.exports.names,
        exportResolvedModule wMixMod name = some M) ∧
    (∀ I : String, Node.identifier I ∈
        (DepsMeta.mk [.identifier "b$$"] [.literalStr "./b"]).setters ↔
      ∃ fn ∈ [Node.functionDeclaration (.identifier "b$$") [.identifier "m"]
        [.expressionStatement (.assignmentExpression "=" (.identifier "x")
          (.memberExpression (.identifier "m") (.literalStr "x") true)),
         .expressionStatement (.callExpression (.identifier "__es6_export__")
          [.literalStr "z",
           .memberExpression (.identifier "m") (.literalStr "z") true])]],
        fnName fn = some I) :=
  ⟨rfl, rfl, by decide, by decide, by decide,
   settersNames_spec wMixMod
     ⟨[.identifier "b$$"], [.literalStr "./b"]⟩
     [.functionDeclaration (.identifier "b$$") [.identifier "m"]
       [.expressionStatement (.assignmentExpression "=" (.identifier "x")
         (.memberExpression (.identifier "m") (.literalStr "x") true)),
        .expressionStatement (.callExpression (.identifier "__es6_export__")
         [.literalStr "z",
          .memberExpression (.identifier "m") (.literalStr "z") true])]]
     rfl rfl (by decide) (by decide) (by decide)⟩

end SystemFormatter
